import Mathlib

/-
Shallow embedding of the price-aggregation and watchlist-alerting core of the
ebay_tracker repository (src/utils.py and src/alerts.py).

Modelling conventions:
  * Python floats are abstracted to exact rationals, except that NaN — which is
    reachable in these code paths (numpy produces NaN for the 0/0 z-scores of a
    zero-standard-deviation sample and for the mean of an empty array) — is kept
    as an explicit constructor of `PyFloat`.  Infinities are unreachable in the
    modelled paths (a nonzero deviation forces a nonzero standard deviation), so
    they are not modelled.
  * numpy's z-score comparison `abs((x - mean) / std) < m` with `std > 0` is
    rendered in exact arithmetic as `0 < m ∧ (x - mean)^2 < m^2 * var`, which is
    algebraically equivalent (square both sides; for `m ≤ 0` both are false).
    When `std = 0` every z-score is NaN and `NaN < m` is false, so numpy's
    boolean mask rejects every element; the embedding returns `[]` there.
  * The Price Source (network fetch + HTML scraping, out of the verified core)
    is passed as an environment `env : String → Bool → List ℚ` mapping an item
    name and sold-only flag to the observation list it yields.
  * `asyncio.gather` returns task results positionally, in the order the task
    list was built, independent of completion order; the fan-in of
    `process_watchlist` is therefore embedded as an in-order `List.map`.  The
    semaphore admission discipline itself is modelled separately as a small-step
    transition system (`SemStep`) over scheduler states.
-/

namespace EbayTracker

/-- Python float values reachable in the modelled code paths: an exact numeric
value (rounding abstracted to exact rational arithmetic) or NaN. -/
inductive PyFloat where
  | nan : PyFloat
  | val (q : ℚ) : PyFloat
deriving DecidableEq, Repr

/-- Python comparison `x <= t` of a float against a finite rational target.
Any comparison with NaN is false in IEEE semantics. -/
def PyFloat.leQ : PyFloat → ℚ → Bool
  | PyFloat.nan, _ => false
  | PyFloat.val q, t => decide (q ≤ t)

/-- Python subtraction `x - t` of a finite rational target from a float.
NaN propagates through subtraction. -/
def PyFloat.subQ : PyFloat → ℚ → PyFloat
  | PyFloat.nan, _ => PyFloat.nan
  | PyFloat.val q, t => PyFloat.val (q - t)

/-- WatchlistItem dataclass from src/alerts.py. -/
structure WatchlistItem where
  name : String
  target_price : ℚ
  check_sold : Bool
deriving DecidableEq, Repr

/-- PriceResult dataclass from src/alerts.py. -/
structure PriceResult where
  item : WatchlistItem
  current_price : Option PyFloat
  is_below_target : Bool
  price_difference : PyFloat
deriving DecidableEq, Repr

/-- WatchlistConfig dataclass from src/alerts.py. -/
structure WatchlistConfig where
  webhook_url : Option String
  items : List WatchlistItem
deriving Repr

/-- Population mean `np.mean(data)` in exact arithmetic. -/
def qmean (l : List ℚ) : ℚ := l.sum / l.length

/-- Population variance, i.e. `np.std(data) ^ 2` in exact arithmetic. -/
def qvar (l : List ℚ) : ℚ := ((l.map (fun x => (x - qmean l) ^ 2)).sum) / l.length

/-- remove_outliers from src/utils.py.  The Python returns the input for fewer
than 4 data points (the initial empty-input check returns an empty array, which
coincides with that branch), and otherwise keeps `x` with
`abs((x - mean) / std) < m`.  With `std = 0` (all points equal to the mean)
numpy evaluates each z-score as `0/0 = NaN`, `NaN < m` is false, and the mask
drops every element; with `std > 0` the comparison is equivalent to
`0 < m ∧ (x - mean)^2 < m^2 * var`.  The Python default threshold is `m = 2`. -/
def remove_outliers (prices : List ℚ) (m : ℚ) : List ℚ :=
  if prices.length < 4 then prices
  else if qvar prices = 0 then []
  else prices.filter (fun x => decide (0 < m ∧ (x - qmean prices) ^ 2 < m ^ 2 * qvar prices))

/-- get_average from src/utils.py: `float(np.mean(prices))`.  `np.mean` of an
empty array emits a RuntimeWarning and evaluates to NaN; no exception is
raised and no None is returned. -/
def get_average (prices : List ℚ) : PyFloat :=
  if prices.isEmpty then PyFloat.nan else PyFloat.val (qmean prices)

/-- fetch_item_price from src/alerts.py, with the Price Source call
(`generate_ebay_search_link` + `get_prices_by_link_async`) abstracted as the
environment `env` applied to the item's name and sold-only flag. -/
def fetch_item_price (env : String → Bool → List ℚ) (item : WatchlistItem) : Option PyFloat :=
  let prices := env item.name item.check_sold
  if prices.isEmpty then none
  else some (get_average (remove_outliers prices 2))

/-- check_price_alert from src/alerts.py. -/
def check_price_alert (item : WatchlistItem) (current_price : Option PyFloat) : PriceResult :=
  match current_price with
  | none => { item := item, current_price := none, is_below_target := false,
              price_difference := PyFloat.val 0 }
  | some p => { item := item, current_price := some p,
                is_below_target := p.leQ item.target_price,
                price_difference := p.subQ item.target_price }

/-- Observable notification actions of the Notifier (src/alerts.py):
a durable log append (`log_alert_to_file`) or a webhook POST
(`send_webhook_alert`) to the configured URL. -/
inductive NotifyEvent where
  | logAlert (r : PriceResult) : NotifyEvent
  | webhook (r : PriceResult) (url : String) : NotifyEvent
deriving DecidableEq, Repr

/-- Webhook part of one iteration of the notification loop in
process_watchlist: the POST happens only when a webhook URL is configured. -/
def webhookPart (url : Option String) (r : PriceResult) : List NotifyEvent :=
  match url with
  | some u => [NotifyEvent.webhook r u]
  | none => []

/-- Notification loop of process_watchlist (src/alerts.py): one pass over the
collected results in order; for each result below target, append to the alert
log, then POST to the webhook when one is configured. -/
def notifySweep (url : Option String) : List PriceResult → List NotifyEvent
  | [] => []
  | r :: rs =>
      (if r.is_below_target then NotifyEvent.logAlert r :: webhookPart url r else [])
        ++ notifySweep url rs

/-- process_watchlist from src/alerts.py.  The task list is built in
`config.items` order and `asyncio.gather` returns results positionally in that
same order, so the fan-out/fan-in is embedded as an in-order map; the
semaphore bound does not affect the functional result (it is modelled
separately as `SemStep`).  The returned pair is (results, notification events
emitted before returning). -/
def process_watchlist (env : String → Bool → List ℚ) (config : WatchlistConfig) :
    List PriceResult × List NotifyEvent :=
  let results := config.items.map (fun it => check_price_alert it (fetch_item_price env it))
  (results, notifySweep config.webhook_url results)

/-- Phase of one per-item task of check_item_with_semaphore (src/alerts.py):
`waiting` before `async with semaphore` admits it, `running` while inside the
with-block (where the Price Source call executes), `done` after the block
exits and the semaphore slot is released. -/
inductive TaskPhase where
  | waiting : TaskPhase
  | running : TaskPhase
  | done : TaskPhase
deriving DecidableEq, Repr

/-- State of one process_watchlist run: the phase of each spawned task (one
per watched item, in item order) and the current value of the
`asyncio.Semaphore` counter. -/
structure SchedState where
  tasks : List TaskPhase
  avail : ℕ
deriving Repr

/-- Small-step transition relation of the scheduler: the event loop may admit
a waiting task when the semaphore counter is positive (acquire decrements it),
or retire a running task (release increments it).  This is exactly the
acquire/release discipline of `async with semaphore` in
check_item_with_semaphore; no other statement touches shared state. -/
inductive SemStep : SchedState → SchedState → Prop
  | acquire (ts : List TaskPhase) (a i : ℕ) (hi : i < ts.length)
      (hw : ts.get ⟨i, hi⟩ = TaskPhase.waiting) (ha : 0 < a) :
      SemStep ⟨ts, a⟩ ⟨ts.set i TaskPhase.running, a - 1⟩
  | release (ts : List TaskPhase) (a i : ℕ) (hi : i < ts.length)
      (hr : ts.get ⟨i, hi⟩ = TaskPhase.running) :
      SemStep ⟨ts, a⟩ ⟨ts.set i TaskPhase.done, a + 1⟩

/-- Test of whether a task is inside the semaphore-guarded block. -/
def isRunning : TaskPhase → Bool
  | TaskPhase.running => true
  | _ => false

/-- Number of tasks currently inside the semaphore-guarded block, i.e. tasks
whose Price Source call may be executing. -/
def runningCount (ts : List TaskPhase) : ℕ := ts.countP isRunning

/-- Initial scheduler state of process_watchlist: one waiting task per watched
item and a fresh `asyncio.Semaphore(max_concurrent)`. -/
def initState (n maxC : ℕ) : SchedState :=
  { tasks := List.replicate n TaskPhase.waiting, avail := maxC }

/-! Helper lemmas. -/

lemma check_price_alert_item (item : WatchlistItem) (cp : Option PyFloat) :
    (check_price_alert item cp).item = item := by
  cases cp <;> rfl

lemma notifySweep_eq_flatMap (url : Option String) (rs : List PriceResult) :
    notifySweep url rs =
      (rs.filter (fun r => r.is_below_target)).flatMap
        (fun r => NotifyEvent.logAlert r :: webhookPart url r) := by
  induction rs with
  | nil => rfl
  | cons r rs ih =>
      by_cases h : r.is_below_target
      · simp [notifySweep, List.filter_cons, h, ih]
      · simp [notifySweep, List.filter_cons, h, ih]

lemma countP_set (p : TaskPhase → Bool) (ts : List TaskPhase) :
    ∀ (i : ℕ) (hi : i < ts.length) (x : TaskPhase),
      (ts.set i x).countP p + (if p (ts.get ⟨i, hi⟩) then 1 else 0)
        = ts.countP p + (if p x then 1 else 0) := by
  induction ts with
  | nil => intro i hi x; simp at hi
  | cons t ts ih =>
      intro i hi x
      cases i with
      | zero => simp [List.countP_cons]; omega
      | succ n =>
          have hn : n < ts.length := by simpa using hi
          have := ih n hn x
          show (t :: ts.set n x).countP p + _ = _
          simp only [List.countP_cons, List.get_cons_succ]
          omega

lemma semStep_invariant {s t : SchedState} (h : SemStep s t) (maxC : ℕ)
    (hinv : runningCount s.tasks + s.avail = maxC) :
    runningCount t.tasks + t.avail = maxC := by
  cases h with
  | acquire ts a i hi hw ha =>
      have hc := countP_set isRunning ts i hi TaskPhase.running
      rw [hw] at hc
      simp only [isRunning, if_false, if_true, Bool.false_eq_true] at hc
      simp only [runningCount] at hinv ⊢
      omega
  | release ts a i hi hr =>
      have hc := countP_set isRunning ts i hi TaskPhase.done
      rw [hr] at hc
      simp only [isRunning, if_false, if_true, Bool.false_eq_true] at hc
      simp only [runningCount] at hinv ⊢
      omega

lemma runningCount_replicate_waiting (n : ℕ) :
    runningCount (List.replicate n TaskPhase.waiting) = 0 := by
  induction n with
  | zero => rfl
  | succ k ih =>
      simp only [runningCount, List.replicate_succ, List.countP_cons] at ih ⊢
      simp [isRunning, ih]

/-! Claim theorems. -/

/-- C1: for every WatchedItem and every optional currentPrice, the CheckResult
produced by check_price_alert satisfies: is_below_target is true iff
current_price is present and current_price <= target_price (the comparison is
non-strict, so a tie counts as below target; a present NaN compares false),
and price_difference equals current_price - target_price when current_price is
present and 0 otherwise. -/
theorem check_price_alert_spec (item : WatchlistItem) (cp : Option PyFloat) :
    ((check_price_alert item cp).is_below_target = true ↔
      ∃ p, cp = some p ∧ p.leQ item.target_price = true)
    ∧ (check_price_alert item cp).price_difference =
        (match cp with
         | some p => p.subQ item.target_price
         | none => PyFloat.val 0) := by
  cases cp <;> simp [check_price_alert]

/-- Counterexample for C2: on the 4-element sample [5, 5, 5, 5] the standard
deviation is 0, numpy evaluates every z-score as 0/0 = NaN, `NaN < m` is
false, and remove_outliers removes every observation — not "every observation
is retained" as the claim's zero-deviation clause states. -/
theorem remove_outliers_zero_std_drops_all :
    remove_outliers [5, 5, 5, 5] 2 = []
    ∧ remove_outliers [5, 5, 5, 5] 2 ≠ ([5, 5, 5, 5] : List ℚ) := by
  have h : remove_outliers [5, 5, 5, 5] 2 = [] := by
    norm_num [remove_outliers, qvar, qmean]
  exact ⟨h, by rw [h]; decide⟩

/-- C2 (amended): for every observation sequence with at least 4 elements,
remove_outliers retains exactly the observations x with
|x − mean| < thresholdStdDevs · stddev, where stddev is the population
standard deviation (the nonnegative real σ with σ² equal to the population
variance).  When σ = 0 this strict inequality holds of no observation, so
every observation is removed (numpy's NaN z-scores compare false), not
retained as the claim's zero-deviation clause asserts. -/
theorem remove_outliers_z_score_filter (l : List ℚ) (m : ℚ) (σ : ℝ)
    (h4 : 4 ≤ l.length) (hσ0 : 0 ≤ σ) (hσ : σ ^ 2 = (qvar l : ℝ)) (x : ℚ) :
    x ∈ remove_outliers l m ↔
      x ∈ l ∧ |(x : ℝ) - (qmean l : ℝ)| < (m : ℝ) * σ := by
  have hlt : ¬ l.length < 4 := not_lt.mpr h4
  by_cases hv : qvar l = 0
  · have hσz : σ = 0 := by
      have h2 : σ ^ 2 = 0 := by rw [hσ, hv]; norm_num
      exact (pow_eq_zero_iff (two_ne_zero)).mp h2
    rw [remove_outliers, if_neg hlt, if_pos hv]
    constructor
    · intro h
      exact absurd h (List.not_mem_nil x)
    · rintro ⟨_, habs⟩
      rw [hσz, mul_zero] at habs
      exact absurd habs (not_lt.mpr (abs_nonneg _))
  · have hσpos : 0 < σ := by
      rcases lt_or_eq_of_le hσ0 with h | h
      · exact h
      · exfalso
        apply hv
        have h2 : ((qvar l : ℚ) : ℝ) = 0 := by rw [← hσ, ← h]; norm_num
        exact_mod_cast h2
    rw [remove_outliers, if_neg hlt, if_neg hv, List.mem_filter]
    simp only [decide_eq_true_eq]
    constructor
    · rintro ⟨hxl, hm, hsq⟩
      refine ⟨hxl, ?_⟩
      have hb : (0 : ℝ) ≤ (m : ℝ) * σ := by
        have hmR : (0 : ℝ) < (m : ℝ) := by exact_mod_cast hm
        positivity
      have hsqR : ((x : ℝ) - (qmean l : ℝ)) ^ 2 < (m : ℝ) ^ 2 * (qvar l : ℝ) := by
        exact_mod_cast hsq
      have h2 : |(x : ℝ) - (qmean l : ℝ)| ^ 2 < ((m : ℝ) * σ) ^ 2 := by
        rw [sq_abs, mul_pow, hσ]
        exact hsqR
      exact lt_of_pow_lt_pow_left 2 hb h2
    · rintro ⟨hxl, habs⟩
      have hmσpos : (0 : ℝ) < (m : ℝ) * σ := lt_of_le_of_lt (abs_nonneg _) habs
      have hmR : (0 : ℝ) < (m : ℝ) := by
        by_contra hc
        push_neg at hc
        nlinarith
      refine ⟨hxl, by exact_mod_cast hmR, ?_⟩
      have h2 : ((x : ℝ) - (qmean l : ℝ)) ^ 2 < ((m : ℝ) * σ) ^ 2 := by
        rw [← sq_abs]
        exact pow_lt_pow_left habs (abs_nonneg _) two_ne_zero
      rw [mul_pow, hσ] at h2
      exact_mod_cast h2

/-- Witness for C2 (amended) on the sample [1, 2, 3, 10] (variance 25/2) with
the default threshold 2, testing membership of the observation 10. -/
theorem remove_outliers_z_score_filter_witness :
    (10 : ℚ) ∈ remove_outliers [1, 2, 3, 10] 2 ↔
      (10 : ℚ) ∈ ([1, 2, 3, 10] : List ℚ)
        ∧ |((10 : ℚ) : ℝ) - (qmean [1, 2, 3, 10] : ℝ)|
            < ((2 : ℚ) : ℝ) * Real.sqrt ((qvar [1, 2, 3, 10] : ℚ) : ℝ) :=
  remove_outliers_z_score_filter [1, 2, 3, 10] 2
    (Real.sqrt ((qvar [1, 2, 3, 10] : ℚ) : ℝ)) (by decide)
    (Real.sqrt_nonneg _)
    (Real.sq_sqrt (by norm_num [qvar, qmean])) 10

/-- C3: on the empty observation sequence get_average yields NaN — the
distinct non-numeric NoData outcome, different from every numeric value — and
on every non-empty sequence it yields the numeric arithmetic mean (the unique
q with q * length = sum). -/
theorem get_average_nodata_or_mean (l : List ℚ) :
    (l = [] → ∀ q : ℚ, get_average l ≠ PyFloat.val q)
    ∧ (l ≠ [] → ∃ q : ℚ, get_average l = PyFloat.val q ∧ q * l.length = l.sum) := by
  constructor
  · rintro rfl q
    simp [get_average]
  · intro h
    have h0 : l.length ≠ 0 := fun hc => h (List.length_eq_zero.mp hc)
    have hn : (l.length : ℚ) ≠ 0 := Nat.cast_ne_zero.mpr h0
    refine ⟨qmean l, ?_, ?_⟩
    · simp [get_average, List.isEmpty_iff, h]
    · simpa [qmean] using div_mul_cancel₀ l.sum hn

/-- Witness for C3 at the concrete non-empty input [2, 4]. -/
theorem get_average_nodata_or_mean_witness :
    ([2, 4] : List ℚ) ≠ []
    ∧ ∃ q : ℚ, get_average [2, 4] = PyFloat.val q
        ∧ q * ([2, 4] : List ℚ).length = ([2, 4] : List ℚ).sum :=
  ⟨by decide, (get_average_nodata_or_mean [2, 4]).2 (by decide)⟩

/-- C4 (code bug, evaluation at the failing input): when the Price Source
yields the non-empty sample [5, 5, 5, 5], the Outlier Filter removes every
observation (zero standard deviation, see C2), get_average of the empty result
is NaN rather than an absent value, so fetch_item_price reports some NaN and
check_price_alert reports a present current_price of NaN with a NaN
price_difference — not the empty-fetch CheckResult (absent price, difference
0) that the documented behaviour requires. -/
theorem fetch_item_price_nan_on_uniform_sample :
    fetch_item_price (fun _ _ => [5, 5, 5, 5]) ⟨"x", 500, false⟩ = some PyFloat.nan
    ∧ check_price_alert ⟨"x", 500, false⟩
        (fetch_item_price (fun _ _ => [5, 5, 5, 5]) ⟨"x", 500, false⟩)
      ≠ check_price_alert ⟨"x", 500, false⟩ none := by
  have h : fetch_item_price (fun _ _ => [5, 5, 5, 5]) ⟨"x", 500, false⟩
      = some PyFloat.nan := by
    norm_num [fetch_item_price, remove_outliers, qvar, qmean, get_average]
  refine ⟨h, ?_⟩
  rw [h]
  simp [check_price_alert]

/-- C8: for every observation sequence with fewer than 4 elements (the empty
sequence included), remove_outliers returns its input unchanged. -/
theorem remove_outliers_short_input_id (l : List ℚ) (m : ℚ) (h : l.length < 4) :
    remove_outliers l m = l := by
  simp [remove_outliers, h]

/-- Witness for C8 at the concrete input [1, 2, 3] with threshold 2. -/
theorem remove_outliers_short_input_id_witness :
    ([1, 2, 3] : List ℚ).length < 4 ∧ remove_outliers [1, 2, 3] 2 = [1, 2, 3] :=
  ⟨by decide, remove_outliers_short_input_id [1, 2, 3] 2 (by decide)⟩

/-- C10: for every input observation sequence and every threshold, the output
of remove_outliers is an order-preserving subsequence of its input — every
output element occurs in the input, nothing is duplicated or introduced, and
relative order is preserved. -/
theorem remove_outliers_sublist (l : List ℚ) (m : ℚ) :
    (remove_outliers l m).Sublist l := by
  unfold remove_outliers
  split
  · exact List.Sublist.refl l
  · split
    · exact List.nil_sublist l
    · exact List.filter_sublist l

/-- C5: for every Price Source environment and every WatchlistConfig, the
result sequence of process_watchlist matches the input item sequence in order
and length: projecting each result to its item field gives back config.items
itself, so in particular the i-th result's item is the i-th watched item. -/
theorem process_watchlist_preserves_item_order (env : String → Bool → List ℚ)
    (config : WatchlistConfig) :
    (process_watchlist env config).1.map (fun r => r.item) = config.items := by
  simp [process_watchlist, List.map_map, Function.comp_def, check_price_alert_item]

/-- C9: for every observation sequence with at least 4 elements and non-zero
variance, remove_outliers at the default threshold of 2 standard deviations
retains at least one element: if every element were at least 2 standard
deviations from the mean, the sum of squared deviations would be at least
4 · n · var, yet it equals n · var with var > 0. -/
theorem remove_outliers_default_retains_some (l : List ℚ)
    (h4 : 4 ≤ l.length) (hv : qvar l ≠ 0) :
    remove_outliers l 2 ≠ [] := by
  have hlt : ¬ l.length < 4 := not_lt.mpr h4
  have h0 : l.length ≠ 0 := by omega
  have hnQ : (l.length : ℚ) ≠ 0 := Nat.cast_ne_zero.mpr h0
  have hnpos : (0 : ℚ) < l.length := by
    exact_mod_cast Nat.pos_of_ne_zero h0
  have hsum_nonneg : 0 ≤ (l.map (fun x => (x - qmean l) ^ 2)).sum := by
    apply List.sum_nonneg
    intro x hx
    rcases List.mem_map.mp hx with ⟨y, _, rfl⟩
    positivity
  have hv_pos : 0 < qvar l :=
    lt_of_le_of_ne (div_nonneg hsum_nonneg hnpos.le) (Ne.symm hv)
  intro hempty
  rw [remove_outliers, if_neg hlt, if_neg hv] at hempty
  have hall : ∀ x ∈ l, 2 ^ 2 * qvar l ≤ (x - qmean l) ^ 2 := by
    intro x hx
    have hx2 := List.filter_eq_nil_iff.mp hempty x hx
    simp only [decide_eq_true_eq] at hx2
    push_neg at hx2
    exact hx2 (by norm_num)
  have hsb : (l.map (fun _ => 2 ^ 2 * qvar l)).sum
      ≤ (l.map (fun x => (x - qmean l) ^ 2)).sum :=
    List.sum_le_sum (fun x hx => hall x hx)
  have hconst : (l.map (fun _ : ℚ => (2 : ℚ) ^ 2 * qvar l)).sum
      = l.length * (2 ^ 2 * qvar l) := by
    rw [List.map_const', List.sum_replicate, nsmul_eq_mul]
  have hS : qvar l * l.length = (l.map (fun x => (x - qmean l) ^ 2)).sum := by
    rw [qvar]
    exact div_mul_cancel₀ _ hnQ
  nlinarith [hsb, hconst, hS, hv_pos, hnpos]

/-- Witness for C9 at the concrete input [1, 2, 3, 10] (length 4, variance
25/2 which is non-zero). -/
theorem remove_outliers_default_retains_some_witness :
    4 ≤ ([1, 2, 3, 10] : List ℚ).length
    ∧ qvar [1, 2, 3, 10] ≠ 0
    ∧ remove_outliers [1, 2, 3, 10] 2 ≠ [] :=
  ⟨by decide, by norm_num [qvar, qmean],
    remove_outliers_default_retains_some [1, 2, 3, 10] (by decide)
      (by norm_num [qvar, qmean])⟩

/-- C7: once all checks of a run are collected, process_watchlist emits
notification events exactly for the results with is_below_target = true, in
input order, before returning (the event list is the in-order flatMap over the
below-target results); a webhook event exists only when a webhook URL is
configured and only for a below-target result, and every logged alert belongs
to a below-target result — so results with an absent price or a price above
target trigger no notification. -/
theorem process_watchlist_notifies_below_target (env : String → Bool → List ℚ)
    (config : WatchlistConfig) :
    (process_watchlist env config).2 =
      ((process_watchlist env config).1.filter (fun r => r.is_below_target)).flatMap
        (fun r => NotifyEvent.logAlert r :: webhookPart config.webhook_url r)
    ∧ (∀ r : PriceResult,
        NotifyEvent.logAlert r ∈ (process_watchlist env config).2 →
          r.is_below_target = true)
    ∧ (∀ (r : PriceResult) (u : String),
        NotifyEvent.webhook r u ∈ (process_watchlist env config).2 →
          r.is_below_target = true ∧ config.webhook_url = some u) := by
  refine ⟨notifySweep_eq_flatMap config.webhook_url _, ?_, ?_⟩
  · intro r hr
    rw [show (process_watchlist env config).2 = notifySweep config.webhook_url
          (process_watchlist env config).1 from rfl,
        notifySweep_eq_flatMap] at hr
    rcases List.mem_flatMap.mp hr with ⟨r2, hr2, hmem⟩
    rcases List.mem_cons.mp hmem with heq | hweb
    · cases heq
      exact (List.mem_filter.mp hr2).2
    · cases hurl : config.webhook_url with
      | none => rw [hurl] at hweb; simp [webhookPart] at hweb
      | some u => rw [hurl] at hweb; simp [webhookPart] at hweb
  · intro r u hr
    rw [show (process_watchlist env config).2 = notifySweep config.webhook_url
          (process_watchlist env config).1 from rfl,
        notifySweep_eq_flatMap] at hr
    rcases List.mem_flatMap.mp hr with ⟨r2, hr2, hmem⟩
    rcases List.mem_cons.mp hmem with heq | hweb
    · exact absurd heq (by simp)
    · cases hurl : config.webhook_url with
      | none => rw [hurl] at hweb; simp [webhookPart] at hweb
      | some u2 =>
          rw [hurl] at hweb
          simp only [webhookPart, List.mem_singleton, NotifyEvent.webhook.injEq] at hweb
          rcases hweb with ⟨rfl, rfl⟩
          exact ⟨(List.mem_filter.mp hr2).2, rfl⟩

/-- Witness for C7: a configured webhook URL, a single item whose price comes
back below target, and the resulting webhook event in the emitted list. -/
theorem process_watchlist_notifies_below_target_witness :
    (check_price_alert ⟨"a", 100, false⟩ (some (PyFloat.val 50))).is_below_target = true
    ∧ (WatchlistConfig.mk (some "u") [⟨"a", 100, false⟩]).webhook_url = some "u" :=
  (process_watchlist_notifies_below_target (fun _ _ => [50, 50, 50])
      (WatchlistConfig.mk (some "u") [⟨"a", 100, false⟩])).2.2
    (check_price_alert ⟨"a", 100, false⟩ (some (PyFloat.val 50))) "u"
    (by norm_num [process_watchlist, notifySweep, webhookPart, fetch_item_price,
      remove_outliers, get_average, qmean, check_price_alert, PyFloat.leQ, PyFloat.subQ])

/-- C6: in every scheduler state reachable from the initial state of a run
(every task waiting, semaphore counter at maxConcurrent), at most
maxConcurrent tasks are inside the semaphore-guarded block at once, so at no
instant do more than maxConcurrent Price Source calls execute concurrently. -/
theorem semaphore_bounds_running_tasks (maxC n : ℕ) (s : SchedState)
    (h : Relation.ReflTransGen SemStep (initState n maxC) s) :
    runningCount s.tasks ≤ maxC := by
  have hinv : runningCount s.tasks + s.avail = maxC := by
    induction h with
    | refl => simp [initState, runningCount_replicate_waiting]
    | tail hsteps hstep ih => exact semStep_invariant hstep maxC ih
  omega

/-- Witness for C6 at the spec's scenario of 10 watched items and
maxConcurrent = 3, in the (trivially reachable) initial state. -/
theorem semaphore_bounds_running_tasks_witness :
    runningCount (initState 10 3).tasks ≤ 3 :=
  semaphore_bounds_running_tasks 3 10 (initState 10 3) Relation.ReflTransGen.refl

end EbayTracker
